import Mathlib

/-!
Verification development for the CSV cleaning pipeline of
`assignment_ftp_interface/models/csv_cleaner.py`.

Strings are embedded as `List Char` (the source operates on ASCII text,
one record per line).  Each Python helper of the `CsvCleaner` model is
translated into an executable Lean definition of the same name (in
`lowerCamelCase`); the two orchestrators `clean_device_data` and
`clean_content_data` become folds over the list of lines.  Python's
`datetime` values are embedded as the number of microseconds since
0001-01-01 00:00:00 in the proleptic Gregorian calendar, the same
dates Python supports (year 1 to 9999).
-/

namespace CsvCleaner

/-- ASCII whitespace, as matched by Python's `str.strip()` and the regex
class used by the cleaner on ASCII input. -/
def pyIsSpace (c : Char) : Bool :=
  c = ' ' || c = '\t' || c = '\n' || c = '\r' || c = '\x0b' || c = '\x0c'

/-- Strip characters satisfying `p` from both ends of a list. -/
def stripWhile (p : Char → Bool) (s : List Char) : List Char :=
  ((s.dropWhile p).reverse.dropWhile p).reverse

/-- Python `str.strip()` (whitespace from both ends). -/
def pyStrip (s : List Char) : List Char := stripWhile pyIsSpace s

/-- Python `str.strip('"')` (quote characters from both ends). -/
def stripQuotes (s : List Char) : List Char := stripWhile (fun c => c = '"') s

/-- Numeric value of a string of decimal digits (Python `int`). -/
def digitsToNat (s : List Char) : Nat :=
  s.foldl (fun a c => a * 10 + (c.toNat - 48)) 0

/-- Decimal digits of a natural number, most significant first (fuelled). -/
def natDigitsAux : Nat → Nat → List Char
  | 0, _ => []
  | _, 0 => []
  | f + 1, n => natDigitsAux f (n / 10) ++ [Char.ofNat (48 + n % 10)]

/-- Decimal rendering of a natural number (Python `str(n)` / f-string). -/
def natToChars (n : Nat) : List Char :=
  if n = 0 then ['0'] else natDigitsAux (n + 1) n

/-- Left-pad a digit string with zeros to width `k` (for `strftime`). -/
def padZeros (k : Nat) (s : List Char) : List Char :=
  List.replicate (k - s.length) '0' ++ s

/-- Python `str.split(sep)` for a one-character separator: always returns a
non-empty list; adjacent separators yield empty fields. -/
def splitOnChar (d : Char) : List Char → List (List Char)
  | [] => [[]]
  | c :: rest =>
    if c = d then [] :: splitOnChar d rest
    else
      match splitOnChar d rest with
      | f :: fs => (c :: f) :: fs
      | [] => [[c]]

/-- Lexicographic (code-point) comparison on strings, Python's `<`. -/
def pyStrLt : List Char → List Char → Bool
  | [], [] => false
  | [], _ :: _ => true
  | _ :: _, [] => false
  | a :: as, b :: bs => if a = b then pyStrLt as bs else decide (a < b)

/-- Python `max` over a non-empty list of strings (first element is the
initial accumulator, as in CPython's `max`). -/
def pyMaxList : List (List Char) → List Char
  | [] => []
  | x :: xs => xs.foldl (fun acc y => if pyStrLt acc y then y else acc) x

/-! ## The timestamp regular expression

The source compiles
`(\d{4})-(\d{2})-(\d{2})\s+(\d{2}):(\d{2}):(\d{2})(?:\.(\d+))?([+-]\d{2}:\d{2})?`
and uses the same shape (with non-capturing groups) for `re.findall` in
`_extract_latest_datetime_str`.  The matcher below is that regex,
specialised to its deterministic structure: every piece is either of
fixed width, or a greedy run whose continuation starts with a character
the run cannot contain, so no backtracking can occur. -/

/-- Exactly `n` decimal digits; returns the consumed digits and the rest. -/
def matchNDigits : Nat → List Char → Option (List Char × List Char)
  | 0, s => some ([], s)
  | _ + 1, [] => none
  | n + 1, c :: s =>
    if c.isDigit then (matchNDigits n s).map (fun p => (c :: p.1, p.2)) else none

/-- A single literal character. -/
def matchCh (c : Char) : List Char → Option (List Char)
  | [] => none
  | x :: rest => if x = c then some rest else none

/-- `\s+`: one or more whitespace characters (greedy). -/
def matchWs1 (s : List Char) : Option (List Char × List Char) :=
  let w := s.takeWhile pyIsSpace
  if w.isEmpty then none else some (w, s.dropWhile pyIsSpace)

/-- `(?:\.(\d+))?`: optional fractional part; returns
(consumed characters, captured digit group, rest).  Never fails. -/
def matchFrac : List Char → List Char × Option (List Char) × List Char
  | [] => ([], none, [])
  | c :: rest =>
    if c = '.' then
      let ds := rest.takeWhile Char.isDigit
      if ds.isEmpty then ([], none, c :: rest)
      else (c :: ds, some ds, rest.dropWhile Char.isDigit)
    else ([], none, c :: rest)

/-- `([+-]\d{2}:\d{2})?`: optional timezone offset; returns
(consumed characters, captured offset group, rest).  Never fails. -/
def matchTz : List Char → List Char × Option (List Char) × List Char
  | sg :: a :: b :: c0 :: c :: d :: rest =>
    if (sg = '+' || sg = '-') && c0 = ':' && a.isDigit && b.isDigit && c.isDigit && d.isDigit
    then ([sg, a, b, c0, c, d], some [sg, a, b, c0, c, d], rest)
    else ([], none, sg :: a :: b :: c0 :: c :: d :: rest)
  | s => ([], none, s)

/-- The numeric groups of a timestamp match, plus the two optional
captures (fractional digits, timezone offset).  Groups 1-6 of the
source's pattern are already converted with `int`. -/
structure TsParts where
  year : Nat
  month : Nat
  day : Nat
  hour : Nat
  minute : Nat
  second : Nat
  frac : Option (List Char)
  tz : Option (List Char)
deriving Repr, DecidableEq

/-- Anchored match of the timestamp pattern at the start of `s`
(Python `pattern.match`): returns the groups, the matched substring and
the remaining input. -/
def matchTimestamp (s : List Char) : Option (TsParts × List Char × List Char) :=
  match matchNDigits 4 s with
  | none => none
  | some (yds, s1) =>
  match matchCh '-' s1 with
  | none => none
  | some s2 =>
  match matchNDigits 2 s2 with
  | none => none
  | some (mds, s3) =>
  match matchCh '-' s3 with
  | none => none
  | some s4 =>
  match matchNDigits 2 s4 with
  | none => none
  | some (dds, s5) =>
  match matchWs1 s5 with
  | none => none
  | some (wds, s6) =>
  match matchNDigits 2 s6 with
  | none => none
  | some (hds, s7) =>
  match matchCh ':' s7 with
  | none => none
  | some s8 =>
  match matchNDigits 2 s8 with
  | none => none
  | some (mids, s9) =>
  match matchCh ':' s9 with
  | none => none
  | some s10 =>
  match matchNDigits 2 s10 with
  | none => none
  | some (sds, s11) =>
  let (fc, fg, s12) := matchFrac s11
  let (tc, tg, s13) := matchTz s12
  some (⟨digitsToNat yds, digitsToNat mds, digitsToNat dds,
         digitsToNat hds, digitsToNat mids, digitsToNat sds, fg, tg⟩,
        yds ++ '-' :: mds ++ '-' :: dds ++ wds ++ hds ++ ':' :: mids
          ++ ':' :: sds ++ fc ++ tc,
        s13)

/-! Structural facts about the matchers, needed to justify the
termination of the `findall` scan. -/

theorem matchNDigits_spec {n : Nat} {s ds r : List Char}
    (h : matchNDigits n s = some (ds, r)) : s = ds ++ r ∧ ds.length = n := by
  induction n generalizing s ds r with
  | zero =>
    simp only [matchNDigits, Option.some.injEq, Prod.mk.injEq] at h
    simp [← h.1, ← h.2]
  | succ k ih =>
    match s with
    | [] => simp [matchNDigits] at h
    | c :: t =>
      simp only [matchNDigits] at h
      split at h
      · match e : matchNDigits k t with
        | none => rw [e] at h; exact Option.noConfusion h
        | some (ds', r') =>
          rw [e] at h
          simp at h
          obtain ⟨hd, hr⟩ := h
          obtain ⟨h1, h2⟩ := ih e
          subst hd; subst hr; subst h1
          simp [h2]
      · exact Option.noConfusion h

theorem matchCh_spec {c : Char} {s r : List Char}
    (h : matchCh c s = some r) : s = c :: r := by
  match s with
  | [] => simp [matchCh] at h
  | x :: t =>
    simp only [matchCh] at h
    split at h
    · simp only [Option.some.injEq] at h; subst h; simp_all
    · simp at h

theorem matchWs1_spec {s w r : List Char}
    (h : matchWs1 s = some (w, r)) : s = w ++ r ∧ w ≠ [] := by
  simp only [matchWs1] at h
  split at h
  · simp at h
  · next he =>
    simp only [Option.some.injEq, Prod.mk.injEq] at h
    obtain ⟨h1, h2⟩ := h
    subst h1; subst h2
    exact ⟨(List.takeWhile_append_dropWhile pyIsSpace s).symm,
      by simpa [List.isEmpty_iff] using he⟩

theorem matchFrac_spec {s fc r : List Char} {fg : Option (List Char)}
    (h : matchFrac s = (fc, fg, r)) : s = fc ++ r := by
  match s with
  | [] =>
    simp only [matchFrac, Prod.mk.injEq] at h
    simp [← h.1, ← h.2.2]
  | c :: t =>
    simp only [matchFrac] at h
    split at h
    · split at h
      · simp only [Prod.mk.injEq] at h
        simp [← h.1, ← h.2.2]
      · next hc _ =>
        simp only [Prod.mk.injEq] at h
        subst hc
        simp [← h.1, ← h.2.2, List.takeWhile_append_dropWhile]
    · simp only [Prod.mk.injEq] at h
      simp [← h.1, ← h.2.2]

theorem matchTz_spec {s tc r : List Char} {tg : Option (List Char)}
    (h : matchTz s = (tc, tg, r)) : s = tc ++ r := by
  match s with
  | sg :: a :: b :: c0 :: c :: d :: rest =>
    simp only [matchTz] at h
    split at h
    · simp only [Prod.mk.injEq] at h
      simp [← h.1, ← h.2.2]
    · simp only [Prod.mk.injEq] at h
      simp [← h.1, ← h.2.2]
  | [] => simp only [matchTz, Prod.mk.injEq] at h; simp [← h.1, ← h.2.2]
  | [x1] => simp only [matchTz, Prod.mk.injEq] at h; simp [← h.1, ← h.2.2]
  | [x1, x2] => simp only [matchTz, Prod.mk.injEq] at h; simp [← h.1, ← h.2.2]
  | [x1, x2, x3] => simp only [matchTz, Prod.mk.injEq] at h; simp [← h.1, ← h.2.2]
  | [x1, x2, x3, x4] =>
    simp only [matchTz, Prod.mk.injEq] at h; simp [← h.1, ← h.2.2]
  | [x1, x2, x3, x4, x5] =>
    simp only [matchTz, Prod.mk.injEq] at h; simp [← h.1, ← h.2.2]

/-- A successful anchored match decomposes the input into the matched
substring (never empty) and the rest. -/
theorem matchTimestamp_spec {s : List Char} {p : TsParts} {m r : List Char}
    (h : matchTimestamp s = some (p, m, r)) : s = m ++ r ∧ m ≠ [] := by
  unfold matchTimestamp at h
  split at h
  · exact Option.noConfusion h
  rename_i yds s1 e1
  split at h
  · exact Option.noConfusion h
  rename_i s2 e2
  split at h
  · exact Option.noConfusion h
  rename_i mds s3 e3
  split at h
  · exact Option.noConfusion h
  rename_i s4 e4
  split at h
  · exact Option.noConfusion h
  rename_i dds s5 e5
  split at h
  · exact Option.noConfusion h
  rename_i wds s6 e6
  split at h
  · exact Option.noConfusion h
  rename_i hds s7 e7
  split at h
  · exact Option.noConfusion h
  rename_i s8 e8
  split at h
  · exact Option.noConfusion h
  rename_i mids s9 e9
  split at h
  · exact Option.noConfusion h
  rename_i s10 e10
  split at h
  · exact Option.noConfusion h
  rename_i sds s11 e11
  obtain ⟨hs1, hy⟩ := matchNDigits_spec e1
  obtain hs2 := matchCh_spec e2
  obtain ⟨hs3, _⟩ := matchNDigits_spec e3
  obtain hs4 := matchCh_spec e4
  obtain ⟨hs5, _⟩ := matchNDigits_spec e5
  obtain ⟨hs6, _⟩ := matchWs1_spec e6
  obtain ⟨hs7, _⟩ := matchNDigits_spec e7
  obtain hs8 := matchCh_spec e8
  obtain ⟨hs9, _⟩ := matchNDigits_spec e9
  obtain hs10 := matchCh_spec e10
  obtain ⟨hs11, _⟩ := matchNDigits_spec e11
  match e12 : matchFrac s11 with
  | (fc, fg, s12) =>
  match e13 : matchTz s12 with
  | (tc, tg, s13) =>
  rw [e12] at h
  simp only at h
  rw [e13] at h
  simp only [Option.some.injEq, Prod.mk.injEq] at h
  obtain hsfr := matchFrac_spec e12
  obtain hstz := matchTz_spec e13
  obtain ⟨_, hm', hr'⟩ := h
  constructor
  · rw [← hm', ← hr']
    subst hs1 hs2 hs3 hs4 hs5 hs6 hs7 hs8 hs9 hs10 hs11 hsfr hstz
    simp [List.append_assoc]
  · rw [← hm']
    cases yds with
    | nil => simp at hy
    | cons a t => simp

/-! ## `re.findall` of the timestamp pattern and the "latest" choice -/

/-- Structural worker for the `re.findall` scan: at each position, take
the (non-empty) match and continue after it, or advance one character.
The fuel only bounds the recursion depth and is irrelevant as long as
it is at least the input length (`findAllTsGo_fuel`). -/
def findAllTsGo : Nat → List Char → List (List Char)
  | 0, _ => []
  | _ + 1, [] => []
  | fuel + 1, c :: rest =>
    match matchTimestamp (c :: rest) with
    | some (_, m, r) => m :: findAllTsGo fuel r
    | none => findAllTsGo fuel rest

theorem findAllTsGo_fuel :
    ∀ (f1 : Nat), ∀ (f2 : Nat) (s : List Char),
      s.length ≤ f1 → s.length ≤ f2 →
      findAllTsGo f1 s = findAllTsGo f2 s := by
  intro f1
  induction f1 with
  | zero =>
    intro f2 s h1 _
    have : s = [] := List.eq_nil_of_length_eq_zero (by omega)
    subst this
    cases f2 <;> rfl
  | succ k ih =>
    intro f2 s h1 h2
    match s with
    | [] => cases f2 <;> rfl
    | c :: rest =>
      match f2 with
      | 0 => simp at h2
      | g + 1 =>
        simp only [List.length_cons] at h1 h2
        simp only [findAllTsGo]
        split
        · rename_i p m r hmat
          obtain ⟨hs, hm⟩ := matchTimestamp_spec hmat
          have h3 : (c :: rest).length = m.length + r.length := by
            rw [hs, List.length_append]
          have hpos : 0 < m.length := List.length_pos_of_ne_nil hm
          simp only [List.length_cons] at h3
          rw [ih g r (by omega) (by omega)]
        · rw [ih g rest (by omega) (by omega)]

/-- `re.findall` of the timestamp pattern over a whole line. -/
def findAllTs (s : List Char) : List (List Char) := findAllTsGo s.length s

/-- `_extract_latest_datetime_str`: all pattern matches in the line;
`None` when there are none, the lexicographic maximum when there are
several, the single match otherwise. -/
def extractLatestDatetimeStr (text : List Char) : Option (List Char) :=
  if (findAllTs text).isEmpty then none
  else if 1 < (findAllTs text).length then some (pyMaxList (findAllTs text))
  else some ((findAllTs text).headD [])

/-! ## The Gregorian calendar, as Python's `datetime` implements it -/

/-- Leap year in the proleptic Gregorian calendar. -/
def isLeap (y : Nat) : Bool := y % 4 = 0 && (y % 100 ≠ 0 || y % 400 = 0)

/-- Number of days in month `m` (1-12) of year `y`. -/
def daysInMonth (y m : Nat) : Nat :=
  if m = 2 then (if isLeap y then 29 else 28)
  else if m = 4 || m = 6 || m = 9 || m = 11 then 30
  else if 1 ≤ m && m ≤ 12 then 31
  else 0

/-- Days in the months of year `y` strictly before month `m`. -/
def daysBeforeMonth (y m : Nat) : Nat :=
  (List.range m).foldl (fun a k => if 1 ≤ k then a + daysInMonth y k else a) 0

/-- Days in the years strictly before year `y` (year 1 is the first). -/
def daysBeforeYear (y : Nat) : Nat :=
  (y - 1) * 365 + (y - 1) / 4 - (y - 1) / 100 + (y - 1) / 400

/-- Python `date.toordinal()`: 0001-01-01 is day 1. -/
def ymdToOrdinal (y m d : Nat) : Nat :=
  daysBeforeYear y + daysBeforeMonth y m + d

/-- The validity check performed by the `datetime(year, month, day)`
constructor: `ValueError` outside these bounds. -/
def dateValidB (y m d : Nat) : Bool :=
  1 ≤ y && y ≤ 9999 && 1 ≤ m && m ≤ 12 && 1 ≤ d && d ≤ daysInMonth y m

/-- Ordinal of 9999-12-31, Python's `datetime.max.toordinal()`. -/
def maxOrdinal : Nat := 3652059

/-- Inverse of `ymdToOrdinal` (the `_ord2ymd` step inside `strftime`),
via era/cycle arithmetic on days counted from 0000-03-01. -/
def ordinalToYmd (o : Nat) : Nat × Nat × Nat :=
  let z := o + 305
  let era := z / 146097
  let doe := z % 146097
  let yoe := (doe - doe / 1460 + doe / 36524 - doe / 146096) / 365
  let y0 := yoe + era * 400
  let doy := doe - (365 * yoe + yoe / 4 - yoe / 100)
  let mp := (5 * doy + 2) / 153
  let d := doy - (153 * mp + 2) / 5 + 1
  let m := if mp < 10 then mp + 3 else mp - 9
  (if m ≤ 2 then y0 + 1 else y0, m, d)

/-- A Python `datetime` value, as microseconds since 0001-01-01 00:00:00. -/
abbrev PyDateTime := Nat

/-- `_fix_malformed_timestamp`: anchored-match the timestamp pattern,
build `datetime(year, month, day)` and add the time-of-day components as
a `timedelta` (which is what produces rollover for out-of-range values);
`None` when the pattern does not match, the date triple is invalid, or
the sum exceeds `datetime.max`.  The matched timezone group is never
consulted. -/
def fixMalformedTimestamp (s : List Char) : Option PyDateTime :=
  match matchTimestamp s with
  | none => none
  | some (p, _, _) =>
    let microsecond :=
      match p.frac with
      | some ds => digitsToNat ((ds ++ List.replicate 6 '0').take 6)
      | none => 0
    if dateValidB p.year p.month p.day then
      let total := (ymdToOrdinal p.year p.month p.day - 1) * 86400000000
        + p.hour * 3600000000 + p.minute * 60000000
        + p.second * 1000000 + microsecond
      if total ≤ maxOrdinal * 86400000000 - 1 then some total else none
    else none

/-- `_parse_and_clean_datetime`: find the latest candidate, then repair
it; `None` when either step fails (the `if not latest_datetime_str`
guard also rejects an empty string, which no match can be). -/
def parseAndCleanDatetime (text : List Char) : Option PyDateTime :=
  match extractLatestDatetimeStr text with
  | none => none
  | some s => if s.isEmpty then none else fixMalformedTimestamp s

/-- `strftime('%Y-%m-%d %H:%M:%S')`: second precision, microseconds
dropped. -/
def formatDt (t : PyDateTime) : List Char :=
  let dayOrd := t / 86400000000 + 1
  let secOfDay := t % 86400000000 / 1000000
  let ymd := ordinalToYmd dayOrd
  padZeros 4 (natToChars ymd.1) ++ '-' :: padZeros 2 (natToChars ymd.2.1)
    ++ '-' :: padZeros 2 (natToChars ymd.2.2)
    ++ ' ' :: padZeros 2 (natToChars (secOfDay / 3600))
    ++ ':' :: padZeros 2 (natToChars (secOfDay % 3600 / 60))
    ++ ':' :: padZeros 2 (natToChars (secOfDay % 60))

/-! ## `_preprocess_and_split_line`

Three `re.sub` passes and a split.  The delimiter is embedded as a
single non-whitespace character (its only use in the repository is the
configured one-character delimiter, `,` by default); under that
assumption each of the three patterns is deterministic (no backtracking
can change a match). -/

/-- `re.sub(r'(\d)(")', r'\1' + delimiter + r'\2', _)`: insert the
delimiter between a digit and an immediately following quote. -/
def subDigitQuote (d : Char) : List Char → List Char
  | [] => []
  | [c] => [c]
  | c1 :: c2 :: rest =>
    if c1.isDigit && c2 = '"' then c1 :: d :: c2 :: subDigitQuote d rest
    else c1 :: subDigitQuote d (c2 :: rest)

theorem dropWhile_length_le (p : Char → Bool) (l : List Char) :
    (l.dropWhile p).length ≤ l.length := by
  induction l with
  | nil => simp
  | cons a t ih =>
    simp only [List.dropWhile_cons]
    split
    · simp only [List.length_cons]; omega
    · exact Nat.le_refl _

/-- After an opening quote: `\s*"`, returning the input after the
closing quote when it matches. -/
def wsQuoteSplit (s : List Char) : Option (List Char) :=
  match s.dropWhile pyIsSpace with
  | '"' :: rest => some rest
  | _ => none

theorem wsQuoteSplit_length {s r : List Char} (h : wsQuoteSplit s = some r) :
    r.length < s.length := by
  unfold wsQuoteSplit at h
  split at h
  · rename_i rest heq
    simp only [Option.some.injEq] at h
    subst h
    have h1 : (s.dropWhile pyIsSpace).length ≤ s.length :=
      dropWhile_length_le _ _
    rw [heq] at h1
    simp only [List.length_cons] at h1
    omega
  · exact Option.noConfusion h

/-- Structural worker for the second substitution; the fuel only bounds
the recursion depth and is irrelevant as long as it is at least the
input length (`subQuoteWsQuoteGo_fuel`), which every call site ensures. -/
def subQuoteWsQuoteGo (d : Char) : Nat → List Char → List Char
  | 0, s => s
  | _ + 1, [] => []
  | fuel + 1, c :: rest =>
    if c = '"' then
      match wsQuoteSplit rest with
      | some rest' => c :: d :: '"' :: subQuoteWsQuoteGo d fuel rest'
      | none => c :: subQuoteWsQuoteGo d fuel rest
    else c :: subQuoteWsQuoteGo d fuel rest

theorem subQuoteWsQuoteGo_fuel (d : Char) :
    ∀ (f1 : Nat), ∀ (f2 : Nat) (s : List Char),
      s.length ≤ f1 → s.length ≤ f2 →
      subQuoteWsQuoteGo d f1 s = subQuoteWsQuoteGo d f2 s := by
  intro f1
  induction f1 with
  | zero =>
    intro f2 s h1 _
    have : s = [] := List.eq_nil_of_length_eq_zero (by omega)
    subst this
    cases f2 <;> rfl
  | succ k ih =>
    intro f2 s h1 h2
    match s with
    | [] => cases f2 <;> rfl
    | c :: rest =>
      match f2 with
      | 0 => simp at h2
      | g + 1 =>
        simp only [List.length_cons] at h1 h2
        simp only [subQuoteWsQuoteGo]
        split
        · split
          · rename_i rest' hsp
            have hlt := wsQuoteSplit_length hsp
            rw [ih g rest' (by omega) (by omega)]
          · rw [ih g rest (by omega) (by omega)]
        · rw [ih g rest (by omega) (by omega)]

/-- `re.sub(r'"\s*"', f'"{delimiter}"', _)`: separate two adjacent
quoted fields. -/
def subQuoteWsQuote (d : Char) (s : List Char) : List Char :=
  subQuoteWsQuoteGo d s.length s

/-- `\s*<delim>\s*` at the current position, returning the rest. -/
def delimRunSplit (d : Char) (s : List Char) : Option (List Char) :=
  match s.dropWhile pyIsSpace with
  | c :: rest => if c = d then some (rest.dropWhile pyIsSpace) else none
  | [] => none

theorem delimRunSplit_length {d : Char} {s r : List Char}
    (h : delimRunSplit d s = some r) : r.length < s.length := by
  unfold delimRunSplit at h
  split at h
  · rename_i c rest heq
    split at h
    · simp only [Option.some.injEq] at h
      subst h
      have h1 : (s.dropWhile pyIsSpace).length ≤ s.length :=
        dropWhile_length_le _ _
      have h2 : (rest.dropWhile pyIsSpace).length ≤ rest.length :=
        dropWhile_length_le _ _
      rw [heq] at h1
      simp only [List.length_cons] at h1
      omega
    · exact Option.noConfusion h
  · exact Option.noConfusion h

/-- Structural worker for the third substitution, with the same fuel
convention as `subQuoteWsQuoteGo`. -/
def subWsDelimWsGo (d : Char) : Nat → List Char → List Char
  | 0, s => s
  | _ + 1, [] => []
  | fuel + 1, c :: rest =>
    match delimRunSplit d (c :: rest) with
    | some r => d :: subWsDelimWsGo d fuel r
    | none => c :: subWsDelimWsGo d fuel rest

theorem subWsDelimWsGo_fuel (d : Char) :
    ∀ (f1 : Nat), ∀ (f2 : Nat) (s : List Char),
      s.length ≤ f1 → s.length ≤ f2 →
      subWsDelimWsGo d f1 s = subWsDelimWsGo d f2 s := by
  intro f1
  induction f1 with
  | zero =>
    intro f2 s h1 _
    have : s = [] := List.eq_nil_of_length_eq_zero (by omega)
    subst this
    cases f2 <;> rfl
  | succ k ih =>
    intro f2 s h1 h2
    match s with
    | [] => cases f2 <;> rfl
    | c :: rest =>
      match f2 with
      | 0 => simp at h2
      | g + 1 =>
        simp only [List.length_cons] at h1 h2
        simp only [subWsDelimWsGo]
        split
        · rename_i r hsp
          have hlt := delimRunSplit_length hsp
          simp only [List.length_cons] at hlt
          rw [ih g r (by omega) (by omega)]
        · rw [ih g rest (by omega) (by omega)]

/-- `re.sub(r'\s*' + re.escape(delimiter) + r'\s*', delimiter, _)`:
standardize whitespace around each delimiter occurrence. -/
def subWsDelimWs (d : Char) (s : List Char) : List Char :=
  subWsDelimWsGo d s.length s

/-- Python `str.rstrip(delimiter)`: drop trailing delimiter characters. -/
def rstripChar (d : Char) (s : List Char) : List Char :=
  (s.reverse.dropWhile (fun c => c = d)).reverse

/-- `_preprocess_and_split_line`: repair a raw line, then split it on
the delimiter into the ordered field list (always non-empty). -/
def preprocessAndSplitLine (line : List Char) (delimiter : Char) :
    List (List Char) :=
  let corrected := subQuoteWsQuote delimiter (subDigitQuote delimiter (pyStrip line))
  let standardized := rstripChar delimiter (subWsDelimWs delimiter corrected)
  splitOnChar delimiter standardized

/-! ## Field helpers -/

/-- The stage at which a line is discarded.  Each constructor
corresponds to one of the `_logger.error` discard messages in the
source (the content pipeline's two "empty" discards log nothing but
still count as discards). -/
inductive DiscardReason where
  | emptyLine
  | emptyAfterProcessing
  | noNumericId
  | duplicateId
  | noDatetime
  | noCode
  | duplicateCode
  | noContentDeviceId
deriving DecidableEq, Repr

/-- `_process_id`: keep only digit characters (`re.sub(r'\D', '', _)`),
fail when none remain, convert with `int`, fail when the value was
already accepted in this run. -/
def processId (idField : List Char) (seenIds : List Nat) :
    Except DiscardReason Nat :=
  if (idField.filter Char.isDigit).isEmpty then
    Except.error DiscardReason.noNumericId
  else if digitsToNat (idField.filter Char.isDigit) ∈ seenIds then
    Except.error DiscardReason.duplicateId
  else Except.ok (digitsToNat (idField.filter Char.isDigit))

/-- `field.lower().strip()`, the normalisation applied before the
status comparison. -/
def normStatus (field : List Char) : List Char :=
  pyStrip (field.map Char.toLower)

/-- `_extract_status`: first field whose normalisation is exactly
`enabled` or `deleted`; `enabled` when none matches. -/
def extractStatus : List (List Char) → List Char
  | [] => "enabled".data
  | field :: rest =>
    if normStatus field = "enabled".data ∨ normStatus field = "deleted".data
    then normStatus field
    else extractStatus rest

/-- Character class `[A-Z0-9]`. -/
def isCodeChar (c : Char) : Bool := ('A' ≤ c && c ≤ 'Z') || c.isDigit

/-- Full match of `^[A-Z0-9]{4,30}$`. -/
def matchesCodePattern (s : List Char) : Bool :=
  4 ≤ s.length && s.length ≤ 30 && s.all isCodeChar

/-- Scan of `_find_device_code` from field index `idx` on. -/
def findDeviceCodeGo (seenCodes : List (List Char)) :
    Nat → List (List Char) → Except DiscardReason (List Char × Nat)
  | _, [] => Except.error DiscardReason.noCode
  | idx, field :: rest =>
    if matchesCodePattern (pyStrip field) then
      if pyStrip field ∈ seenCodes then Except.error DiscardReason.duplicateCode
      else Except.ok (pyStrip field, idx)
    else findDeviceCodeGo seenCodes (idx + 1) rest

/-- `_find_device_code`: left-to-right scan for the first field matching
the code shape; a duplicate of an already-accepted code discards the
line immediately. -/
def findDeviceCode (fields : List (List Char))
    (seenCodes : List (List Char)) : Except DiscardReason (List Char × Nat) :=
  findDeviceCodeGo seenCodes 0 fields

/-- `_extract_name_and_description`: name from field 1 (synthesised
from the id when absent), description from the fields strictly between
index 2 and the key index. -/
def extractNameAndDescription (fields : List (List Char)) (codeIndex : Nat)
    (deviceId : Nat) : List Char × List Char :=
  let name :=
    if 1 < fields.length then stripQuotes (pyStrip (fields.getD 1 []))
    else "Machine ".data ++ natToChars deviceId
  let descParts :=
    if 2 < codeIndex then (fields.drop 2).take (codeIndex - 2) else []
  (name, List.intercalate [' ']
    (descParts.map (fun part => stripQuotes (pyStrip part))))

/-- `_truncate_field`: cap an oversized value, never fail. -/
def truncateField (value : List Char) (maxLen : Nat) : List Char :=
  if maxLen < value.length then value.take maxLen else value

/-- Python `str.isdigit()` on ASCII: non-empty and all digits. -/
def isDigitsStr (s : List Char) : Bool := !s.isEmpty && s.all Char.isDigit

/-- One probe of the content device-id scan: is the stripped field at
index `idx` purely numeric? -/
def isNumericFieldAt (fields : List (List Char)) (idx : Nat) : Bool :=
  isDigitsStr (pyStrip (fields.getD idx []))

/-- Descending scan of `_find_content_device_id`, from index `start`
down to index 1 (`range(len(fields) - 3, 0, -1)`). -/
def findContentGo (fields : List (List Char)) :
    Nat → Option (Nat × Nat)
  | 0 => none
  | idx + 1 =>
    if isNumericFieldAt fields (idx + 1)
    then some (digitsToNat (pyStrip (fields.getD (idx + 1) [])), idx + 1)
    else findContentGo fields idx

/-- `_find_content_device_id`: scan right-to-left from
`len(fields) - 3` down to 1 for the first purely-numeric field. -/
def findContentDeviceId (fields : List (List Char)) : Option (Nat × Nat) :=
  findContentGo fields (fields.length - 3)

/-! ## The two orchestrators -/

/-- A cleaned device row (`final_row` of `clean_device_data`). -/
structure DeviceRow where
  id : Nat
  name : List Char
  description : List Char
  code : List Char
  expire_date : List Char
  state : List Char
deriving DecidableEq, Repr

/-- A cleaned content row (`final_row` of `clean_content_data`). -/
structure ContentRow where
  id : Nat
  name : List Char
  description : List Char
  device_external_id : Nat
  expire_date : List Char
  state : List Char
deriving DecidableEq, Repr

/-- Running state of one `clean_device_data` invocation: the
accumulator variables of its loop, plus the 1-based line counter and
the trail of discard events (line number and stage). -/
structure DeviceState where
  lineNo : Nat
  rows : List DeviceRow
  seenIds : List Nat
  seenCodes : List (List Char)
  discarded : Nat
  events : List (Nat × DiscardReason)
deriving DecidableEq, Repr

/-- Running state of one `clean_content_data` invocation. -/
structure ContentState where
  lineNo : Nat
  rows : List ContentRow
  seenIds : List Nat
  discarded : Nat
  events : List (Nat × DiscardReason)
deriving DecidableEq, Repr

/-- Discard the current line: bump the counter, record the event, touch
nothing else. -/
def discardDevice (st : DeviceState) (r : DiscardReason) : DeviceState :=
  { st with lineNo := st.lineNo + 1, discarded := st.discarded + 1,
            events := st.events ++ [(st.lineNo + 1, r)] }

/-- Accept a fully validated row: append it and only now extend the two
seen-sets. -/
def acceptDevice (st : DeviceState) (row : DeviceRow) : DeviceState :=
  { st with lineNo := st.lineNo + 1, rows := st.rows ++ [row],
            seenIds := row.id :: st.seenIds,
            seenCodes := row.code :: st.seenCodes }

def discardContent (st : ContentState) (r : DiscardReason) : ContentState :=
  { st with lineNo := st.lineNo + 1, discarded := st.discarded + 1,
            events := st.events ++ [(st.lineNo + 1, r)] }

def acceptContent (st : ContentState) (row : ContentRow) : ContentState :=
  { st with lineNo := st.lineNo + 1, rows := st.rows ++ [row],
            seenIds := row.id :: st.seenIds }

/-- The body of the `clean_device_data` loop, after the field list has
been computed. -/
def processDeviceFields (st : DeviceState) (line : List Char)
    (fields : List (List Char)) : DeviceState :=
  if fields.isEmpty || (fields.headD []).isEmpty then
    discardDevice st DiscardReason.emptyAfterProcessing
  else
    match processId (fields.headD []) st.seenIds with
    | Except.error r => discardDevice st r
    | Except.ok deviceId =>
      match parseAndCleanDatetime line with
      | none => discardDevice st DiscardReason.noDatetime
      | some dt =>
        match findDeviceCode fields st.seenCodes with
        | Except.error r => discardDevice st r
        | Except.ok (deviceCode, codeIndex) =>
          acceptDevice st
            { id := deviceId,
              name := truncateField
                (extractNameAndDescription fields codeIndex deviceId).1 32,
              description := truncateField
                (extractNameAndDescription fields codeIndex deviceId).2 128,
              code := deviceCode,
              expire_date := formatDt dt,
              state := extractStatus fields }

/-- One iteration of the `clean_device_data` loop. -/
def processDeviceLine (delimiter : Char) (st : DeviceState)
    (line : List Char) : DeviceState :=
  if (pyStrip line).isEmpty then discardDevice st DiscardReason.emptyLine
  else processDeviceFields st line (preprocessAndSplitLine line delimiter)

/-- The body of the `clean_content_data` loop, after the field list has
been computed. -/
def processContentFields (st : ContentState) (line : List Char)
    (fields : List (List Char)) : ContentState :=
  if fields.isEmpty || (fields.headD []).isEmpty then
    discardContent st DiscardReason.emptyAfterProcessing
  else
    match processId (fields.headD []) st.seenIds with
    | Except.error r => discardContent st r
    | Except.ok contentId =>
      match parseAndCleanDatetime line with
      | none => discardContent st DiscardReason.noDatetime
      | some dt =>
        match findContentDeviceId fields with
        | none => discardContent st DiscardReason.noContentDeviceId
        | some (deviceExternalId, deviceIdIndex) =>
          acceptContent st
            { id := contentId,
              name := truncateField
                (extractNameAndDescription fields deviceIdIndex contentId).1 100,
              description := truncateField
                (extractNameAndDescription fields deviceIdIndex contentId).2 128,
              device_external_id := deviceExternalId,
              expire_date := formatDt dt,
              state := extractStatus fields }

/-- One iteration of the `clean_content_data` loop. -/
def processContentLine (delimiter : Char) (st : ContentState)
    (line : List Char) : ContentState :=
  if (pyStrip line).isEmpty then discardContent st DiscardReason.emptyLine
  else processContentFields st line (preprocessAndSplitLine line delimiter)

/-- The initial accumulator of `clean_device_data`. -/
def initDeviceState : DeviceState := ⟨0, [], [], [], 0, []⟩

/-- The initial accumulator of `clean_content_data`. -/
def initContentState : ContentState := ⟨0, [], [], 0, []⟩

/-- `clean_device_data`, kept at the level of its full loop state. -/
def cleanDeviceDataFull (rawData : List Char) (delimiter : Char) :
    DeviceState :=
  (splitOnChar '\n' (pyStrip rawData)).foldl (processDeviceLine delimiter)
    initDeviceState

/-- `clean_device_data`: the returned `cleaned_rows`. -/
def cleanDeviceData (rawData : List Char) (delimiter : Char) :
    List DeviceRow :=
  (cleanDeviceDataFull rawData delimiter).rows

/-- `clean_content_data`, kept at the level of its full loop state. -/
def cleanContentDataFull (rawData : List Char) (delimiter : Char) :
    ContentState :=
  (splitOnChar '\n' (pyStrip rawData)).foldl (processContentLine delimiter)
    initContentState

/-- `clean_content_data`: the returned `cleaned_rows`. -/
def cleanContentData (rawData : List Char) (delimiter : Char) :
    List ContentRow :=
  (cleanContentDataFull rawData delimiter).rows

/-! ## Behavioural lemmas about the helpers -/

theorem processId_ok {f : List Char} {seen : List Nat} {n : Nat}
    (h : processId f seen = Except.ok n) :
    n ∉ seen ∧ n = digitsToNat (f.filter Char.isDigit) := by
  unfold processId at h
  split at h
  · exact Except.noConfusion h
  split at h
  · exact Except.noConfusion h
  rename_i hmem
  simp only [Except.ok.injEq] at h
  subst h
  exact ⟨hmem, rfl⟩

theorem processId_duplicate {f : List Char} {seen : List Nat}
    (h1 : (f.filter Char.isDigit).isEmpty = false)
    (h2 : digitsToNat (f.filter Char.isDigit) ∈ seen) :
    processId f seen = Except.error DiscardReason.duplicateId := by
  unfold processId
  rw [if_neg (by simp [h1]), if_pos h2]

theorem findDeviceCodeGo_ok {seen : List (List Char)} {idx : Nat}
    {fields : List (List Char)} {c : List Char} {i : Nat}
    (h : findDeviceCodeGo seen idx fields = Except.ok (c, i)) : c ∉ seen := by
  induction fields generalizing idx with
  | nil => exact Except.noConfusion h
  | cons f rest ih =>
    unfold findDeviceCodeGo at h
    split at h
    · split at h
      · exact Except.noConfusion h
      · rename_i hmem
        simp only [Except.ok.injEq, Prod.mk.injEq] at h
        obtain ⟨hc, _⟩ := h
        subst hc
        exact hmem
    · exact ih h

theorem processId_error {f : List Char} {seen : List Nat} {r : DiscardReason}
    (h : processId f seen = Except.error r) :
    r = DiscardReason.noNumericId ∨ r = DiscardReason.duplicateId := by
  unfold processId at h
  split at h
  · simp only [Except.error.injEq] at h
    exact Or.inl h.symm
  split at h
  · simp only [Except.error.injEq] at h
    exact Or.inr h.symm
  · exact Except.noConfusion h

theorem findDeviceCodeGo_error {seen : List (List Char)} {idx : Nat}
    {fields : List (List Char)} {r : DiscardReason}
    (h : findDeviceCodeGo seen idx fields = Except.error r) :
    r = DiscardReason.noCode ∨ r = DiscardReason.duplicateCode := by
  induction fields generalizing idx with
  | nil =>
    simp only [findDeviceCodeGo, Except.error.injEq] at h
    exact Or.inl h.symm
  | cons f rest ih =>
    unfold findDeviceCodeGo at h
    split at h
    · split at h
      · simp only [Except.error.injEq] at h
        exact Or.inr h.symm
      · exact Except.noConfusion h
    · exact ih h

theorem extractStatus_mem (fields : List (List Char)) :
    extractStatus fields = "enabled".data ∨
    extractStatus fields = "deleted".data := by
  induction fields with
  | nil => exact Or.inl rfl
  | cons f rest ih =>
    unfold extractStatus
    split
    · rename_i hcond; exact hcond
    · exact ih

/-- Whether a field is accepted by the status comparison. -/
def statusHit (field : List Char) : Bool :=
  decide (normStatus field = "enabled".data) ||
  decide (normStatus field = "deleted".data)

theorem extractStatus_eq_find (fields : List (List Char)) :
    extractStatus fields =
      match fields.find? statusHit with
      | some f => normStatus f
      | none => "enabled".data := by
  induction fields with
  | nil => rfl
  | cons f rest ih =>
    by_cases hc : normStatus f = "enabled".data ∨ normStatus f = "deleted".data
    · have hhit : statusHit f = true := by
        simp only [statusHit, Bool.or_eq_true, decide_eq_true_eq]
        exact hc
      unfold extractStatus
      rw [if_pos hc, List.find?_cons_of_pos _ hhit]
    · have hhit : statusHit f = false := by
        simp only [statusHit, Bool.or_eq_false_iff, decide_eq_false_iff_not]
        exact ⟨fun h => hc (Or.inl h), fun h => hc (Or.inr h)⟩
      unfold extractStatus
      rw [if_neg hc, List.find?_cons_of_neg _ (by simp [hhit]), ih]

/-! ## Dichotomy of one loop iteration: every line is either discarded
(state otherwise untouched) or fully accepted (only then are the
seen-sets extended) -/

theorem processDeviceLine_cases (delimiter : Char) (st : DeviceState)
    (line : List Char) :
    (∃ r, processDeviceLine delimiter st line = discardDevice st r)
    ∨ (∃ row : DeviceRow,
        row.id ∉ st.seenIds ∧ row.code ∉ st.seenCodes ∧
        (row.state = "enabled".data ∨ row.state = "deleted".data) ∧
        processDeviceLine delimiter st line = acceptDevice st row) := by
  unfold processDeviceLine
  split
  · exact Or.inl ⟨_, rfl⟩
  unfold processDeviceFields
  split
  · exact Or.inl ⟨_, rfl⟩
  split
  · exact Or.inl ⟨_, rfl⟩
  rename_i deviceId hpid
  split
  · exact Or.inl ⟨_, rfl⟩
  rename_i dt hdt
  split
  · exact Or.inl ⟨_, rfl⟩
  rename_i deviceCode codeIndex hcode
  refine Or.inr ⟨_, ?_, ?_, ?_, rfl⟩
  · exact (processId_ok hpid).1
  · exact findDeviceCodeGo_ok hcode
  · exact extractStatus_mem _

theorem processContentLine_cases (delimiter : Char) (st : ContentState)
    (line : List Char) :
    (∃ r, processContentLine delimiter st line = discardContent st r)
    ∨ (∃ row : ContentRow,
        row.id ∉ st.seenIds ∧
        (row.state = "enabled".data ∨ row.state = "deleted".data) ∧
        processContentLine delimiter st line = acceptContent st row) := by
  unfold processContentLine
  split
  · exact Or.inl ⟨_, rfl⟩
  unfold processContentFields
  split
  · exact Or.inl ⟨_, rfl⟩
  split
  · exact Or.inl ⟨_, rfl⟩
  rename_i contentId hpid
  split
  · exact Or.inl ⟨_, rfl⟩
  rename_i dt hdt
  split
  · exact Or.inl ⟨_, rfl⟩
  rename_i deviceExternalId deviceIdIndex hloc
  refine Or.inr ⟨_, ?_, ?_, rfl⟩
  · exact (processId_ok hpid).1
  · exact extractStatus_mem _

/-! ## Invariants of the whole run -/

theorem foldl_preserve {σ α : Type} (P : σ → Prop) (f : σ → α → σ)
    (hstep : ∀ s a, P s → P (f s a)) :
    ∀ (l : List α) (s : σ), P s → P (l.foldl f s) := by
  intro l
  induction l with
  | nil => exact fun s hs => hs
  | cons a t ih => exact fun s hs => ih _ (hstep s a hs)

/-- The invariant maintained by the device loop: accepted ids and codes
are pairwise distinct, recorded in the seen-sets, and every accepted
state token is `enabled` or `deleted`. -/
def DeviceInv (st : DeviceState) : Prop :=
  (st.rows.map DeviceRow.id).Nodup ∧
  (st.rows.map DeviceRow.code).Nodup ∧
  (∀ r ∈ st.rows, r.id ∈ st.seenIds) ∧
  (∀ r ∈ st.rows, r.code ∈ st.seenCodes) ∧
  (∀ r ∈ st.rows, r.state = "enabled".data ∨ r.state = "deleted".data)

theorem deviceInv_step (delimiter : Char) (st : DeviceState)
    (line : List Char) (h : DeviceInv st) :
    DeviceInv (processDeviceLine delimiter st line) := by
  rcases processDeviceLine_cases delimiter st line with
    ⟨r, he⟩ | ⟨row, hid, hcode, hstate, he⟩
  · rw [he]
    exact h
  · rw [he]
    obtain ⟨h1, h2, h3, h4, h5⟩ := h
    refine ⟨?_, ?_, ?_, ?_, ?_⟩
    · simp only [acceptDevice, List.map_append, List.map_cons, List.map_nil]
      rw [List.nodup_append]
      refine ⟨h1, List.nodup_singleton _, ?_⟩
      intro x hx hx'
      simp only [List.mem_singleton] at hx'
      subst hx'
      obtain ⟨r', hr', hr'id⟩ := List.mem_map.mp hx
      exact hid (hr'id ▸ h3 r' hr')
    · simp only [acceptDevice, List.map_append, List.map_cons, List.map_nil]
      rw [List.nodup_append]
      refine ⟨h2, List.nodup_singleton _, ?_⟩
      intro x hx hx'
      simp only [List.mem_singleton] at hx'
      subst hx'
      obtain ⟨r', hr', hr'c⟩ := List.mem_map.mp hx
      exact hcode (hr'c ▸ h4 r' hr')
    · intro r' hr'
      simp only [acceptDevice, List.mem_append, List.mem_singleton] at hr'
      rcases hr' with hr' | hr'
      · exact List.mem_cons_of_mem _ (h3 r' hr')
      · subst hr'; exact List.mem_cons_self _ _
    · intro r' hr'
      simp only [acceptDevice, List.mem_append, List.mem_singleton] at hr'
      rcases hr' with hr' | hr'
      · exact List.mem_cons_of_mem _ (h4 r' hr')
      · subst hr'; exact List.mem_cons_self _ _
    · intro r' hr'
      simp only [acceptDevice, List.mem_append, List.mem_singleton] at hr'
      rcases hr' with hr' | hr'
      · exact h5 r' hr'
      · subst hr'; exact hstate

theorem cleanDeviceDataFull_inv (raw : List Char) (delimiter : Char) :
    DeviceInv (cleanDeviceDataFull raw delimiter) := by
  unfold cleanDeviceDataFull
  refine foldl_preserve DeviceInv _ (fun s a hs => deviceInv_step delimiter s a hs) _ _ ?_
  exact ⟨List.nodup_nil, List.nodup_nil, by simp [initDeviceState],
    by simp [initDeviceState], by simp [initDeviceState]⟩

/-- The invariant maintained by the content loop. -/
def ContentInv (st : ContentState) : Prop :=
  (st.rows.map ContentRow.id).Nodup ∧
  (∀ r ∈ st.rows, r.id ∈ st.seenIds) ∧
  (∀ r ∈ st.rows, r.state = "enabled".data ∨ r.state = "deleted".data)

theorem contentInv_step (delimiter : Char) (st : ContentState)
    (line : List Char) (h : ContentInv st) :
    ContentInv (processContentLine delimiter st line) := by
  rcases processContentLine_cases delimiter st line with
    ⟨r, he⟩ | ⟨row, hid, hstate, he⟩
  · rw [he]
    exact h
  · rw [he]
    obtain ⟨h1, h2, h3⟩ := h
    refine ⟨?_, ?_, ?_⟩
    · simp only [acceptContent, List.map_append, List.map_cons, List.map_nil]
      rw [List.nodup_append]
      refine ⟨h1, List.nodup_singleton _, ?_⟩
      intro x hx hx'
      simp only [List.mem_singleton] at hx'
      subst hx'
      obtain ⟨r', hr', hr'id⟩ := List.mem_map.mp hx
      exact hid (hr'id ▸ h2 r' hr')
    · intro r' hr'
      simp only [acceptContent, List.mem_append, List.mem_singleton] at hr'
      rcases hr' with hr' | hr'
      · exact List.mem_cons_of_mem _ (h2 r' hr')
      · subst hr'; exact List.mem_cons_self _ _
    · intro r' hr'
      simp only [acceptContent, List.mem_append, List.mem_singleton] at hr'
      rcases hr' with hr' | hr'
      · exact h3 r' hr'
      · subst hr'; exact hstate

theorem cleanContentDataFull_inv (raw : List Char) (delimiter : Char) :
    ContentInv (cleanContentDataFull raw delimiter) := by
  unfold cleanContentDataFull
  refine foldl_preserve ContentInv _ (fun s a hs => contentInv_step delimiter s a hs) _ _ ?_
  exact ⟨List.nodup_nil, by simp [initContentState], by simp [initContentState]⟩

/-! ## Facts about the findall scan and the lexicographic maximum -/

theorem findAllTsGo_ne_nil (fuel : Nat) :
    ∀ (s : List Char), ∀ m ∈ findAllTsGo fuel s, m ≠ [] := by
  induction fuel with
  | zero => intro s; simp [findAllTsGo]
  | succ n ih =>
    intro s
    match s with
    | [] => simp [findAllTsGo]
    | c :: rest =>
      simp only [findAllTsGo]
      split
      · rename_i p m' r hmat
        intro m hm
        rcases List.mem_cons.mp hm with rfl | hm
        · exact (matchTimestamp_spec hmat).2
        · exact ih r m hm
      · exact ih rest

theorem findAllTs_ne_nil (s : List Char) : ∀ m ∈ findAllTs s, m ≠ [] :=
  findAllTsGo_ne_nil s.length s

theorem foldlMax_mem (xs : List (List Char)) :
    ∀ a, xs.foldl (fun acc y => if pyStrLt acc y then y else acc) a ∈ a :: xs := by
  induction xs with
  | nil => intro a; simp
  | cons x t ih =>
    intro a
    simp only [List.foldl_cons]
    rcases List.mem_cons.mp (ih (if pyStrLt a x then x else a)) with h | h
    · rw [h]
      split
      · exact List.mem_cons_of_mem _ (List.mem_cons_self _ _)
      · exact List.mem_cons_self _ _
    · exact List.mem_cons_of_mem _ (List.mem_cons_of_mem _ h)

theorem pyMaxList_mem {l : List (List Char)} (h : l ≠ []) :
    pyMaxList l ∈ l := by
  match l with
  | x :: xs => exact foldlMax_mem xs x

/-! ## Distinguishing accepted and discarded outcomes -/

theorem discardDevice_inj {st : DeviceState} {r r' : DiscardReason}
    (h : discardDevice st r = discardDevice st r') : r = r' := by
  have he := congrArg DeviceState.events h
  simp only [discardDevice] at he
  have := List.append_cancel_left he
  simpa using this

theorem acceptDevice_ne_discardDevice (st : DeviceState) (row : DeviceRow)
    (r : DiscardReason) : acceptDevice st row ≠ discardDevice st r := by
  intro h
  have := congrArg DeviceState.discarded h
  simp only [acceptDevice, discardDevice] at this
  omega

theorem discardContent_inj {st : ContentState} {r r' : DiscardReason}
    (h : discardContent st r = discardContent st r') : r = r' := by
  have he := congrArg ContentState.events h
  simp only [discardContent] at he
  have := List.append_cancel_left he
  simpa using this

theorem acceptContent_ne_discardContent (st : ContentState) (row : ContentRow)
    (r : DiscardReason) : acceptContent st row ≠ discardContent st r := by
  intro h
  have := congrArg ContentState.discarded h
  simp only [acceptContent, discardContent] at this
  omega

theorem processDeviceLine_rows_isPrefix (delimiter : Char) (st : DeviceState)
    (line : List Char) :
    st.rows <+: (processDeviceLine delimiter st line).rows := by
  rcases processDeviceLine_cases delimiter st line with ⟨r, he⟩ | ⟨row, _, _, _, he⟩
  · rw [he]; exact List.prefix_refl _
  · rw [he]; exact ⟨[row], rfl⟩

theorem processContentLine_rows_isPrefix (delimiter : Char) (st : ContentState)
    (line : List Char) :
    st.rows <+: (processContentLine delimiter st line).rows := by
  rcases processContentLine_cases delimiter st line with ⟨r, he⟩ | ⟨row, _, _, he⟩
  · rw [he]; exact List.prefix_refl _
  · rw [he]; exact ⟨[row], rfl⟩

theorem processDeviceFields_ne_emptyDiscard {st : DeviceState}
    {line : List Char} {fields : List (List Char)}
    (hcond : (fields.isEmpty || (fields.headD []).isEmpty) = false) :
    processDeviceFields st line fields
      ≠ discardDevice st DiscardReason.emptyAfterProcessing := by
  unfold processDeviceFields
  rw [if_neg (by rw [hcond]; exact Bool.false_ne_true)]
  cases hp : processId (fields.headD []) st.seenIds with
  | error r =>
    intro h
    have he := discardDevice_inj h
    rcases processId_error hp with h1 | h1 <;> subst h1 <;>
      exact absurd he (by decide)
  | ok n =>
    cases hd : parseAndCleanDatetime line with
    | none =>
      intro h
      have he := discardDevice_inj h
      exact absurd he (by decide)
    | some dt =>
      cases hc : findDeviceCode fields st.seenCodes with
      | error r =>
        intro h
        have he := discardDevice_inj h
        rcases findDeviceCodeGo_error hc with h1 | h1 <;> subst h1 <;>
          exact absurd he (by decide)
      | ok p =>
        obtain ⟨code, cidx⟩ := p
        exact acceptDevice_ne_discardDevice st _ _

theorem processContentFields_ne_emptyDiscard {st : ContentState}
    {line : List Char} {fields : List (List Char)}
    (hcond : (fields.isEmpty || (fields.headD []).isEmpty) = false) :
    processContentFields st line fields
      ≠ discardContent st DiscardReason.emptyAfterProcessing := by
  unfold processContentFields
  rw [if_neg (by rw [hcond]; exact Bool.false_ne_true)]
  cases hp : processId (fields.headD []) st.seenIds with
  | error r =>
    intro h
    have he := discardContent_inj h
    rcases processId_error hp with h1 | h1 <;> subst h1 <;>
      exact absurd he (by decide)
  | ok n =>
    cases hd : parseAndCleanDatetime line with
    | none =>
      intro h
      have he := discardContent_inj h
      exact absurd he (by decide)
    | some dt =>
      cases hc : findContentDeviceId fields with
      | none =>
        intro h
        have he := discardContent_inj h
        exact absurd he (by decide)
      | some p =>
        obtain ⟨devId, didx⟩ := p
        exact acceptContent_ne_discardContent st _ _

/-! ## Characterisation of the content device-id scan -/

theorem findContentGo_some {fields : List (List Char)} {k v i : Nat}
    (h : findContentGo fields k = some (v, i)) :
    1 ≤ i ∧ i ≤ k ∧ isNumericFieldAt fields i = true ∧
    v = digitsToNat (pyStrip (fields.getD i [])) ∧
    ∀ j, i < j → j ≤ k → isNumericFieldAt fields j = false := by
  induction k with
  | zero => exact Option.noConfusion h
  | succ n ih =>
    unfold findContentGo at h
    split at h
    · rename_i hnum
      simp only [Option.some.injEq, Prod.mk.injEq] at h
      obtain ⟨hv, hi⟩ := h
      subst hi
      exact ⟨by omega, Nat.le_refl _, hnum, hv.symm, fun j hj1 hj2 => by omega⟩
    · rename_i hnum
      obtain ⟨h1, h2, h3, h4, h5⟩ := ih h
      refine ⟨h1, by omega, h3, h4, ?_⟩
      intro j hj1 hj2
      rcases Nat.lt_or_ge j (n + 1) with hj | hj
      · exact h5 j hj1 (by omega)
      · have : j = n + 1 := by omega
        subst this
        simpa using hnum

theorem findContentGo_none {fields : List (List Char)} {k : Nat} :
    findContentGo fields k = none ↔
    ∀ j, 1 ≤ j → j ≤ k → isNumericFieldAt fields j = false := by
  induction k with
  | zero =>
    constructor
    · intro _ j h1 h2; omega
    · intro _; rfl
  | succ n ih =>
    constructor
    · intro h j hj1 hj2
      unfold findContentGo at h
      split at h
      · exact Option.noConfusion h
      · rename_i hnum
        rcases Nat.lt_or_ge j (n + 1) with hj | hj
        · exact ih.mp h j hj1 (by omega)
        · have : j = n + 1 := by omega
          subst this
          simpa using hnum
    · intro hall
      unfold findContentGo
      rw [if_neg (by simp [hall (n + 1) (by omega) (Nat.le_refl _)])]
      exact ih.mpr (fun j a b => hall j a (by omega))

/-! ## The timezone offset group: matched, captured, never used -/

theorem takeWhile_all_append {p : Char → Bool} (w t : List Char)
    (hw : w.all p = true) (hhd : ∀ c cs, t = c :: cs → p c = false) :
    (w ++ t).takeWhile p = w ∧ (w ++ t).dropWhile p = t := by
  induction w with
  | nil =>
    simp only [List.nil_append]
    match t with
    | [] => exact ⟨rfl, rfl⟩
    | c :: cs =>
      have hpc := hhd c cs rfl
      constructor
      · simp [List.takeWhile_cons, hpc]
      · simp [List.dropWhile_cons, hpc]
  | cons a wa ih =>
    simp only [List.all_cons, Bool.and_eq_true] at hw
    obtain ⟨hpa, hwa⟩ := hw
    obtain ⟨ih1, ih2⟩ := ih hwa
    constructor
    · simp [List.takeWhile_cons, hpa, ih1]
    · simp [List.dropWhile_cons, hpa, ih2]

theorem digit_not_space {c : Char} (h : c.isDigit = true) :
    pyIsSpace c = false := by
  by_contra hc
  rw [Bool.not_eq_false] at hc
  simp only [pyIsSpace, Bool.or_eq_true, decide_eq_true_eq] at hc
  rcases hc with ((((h1 | h1) | h1) | h1) | h1) | h1 <;> subst h1 <;>
    exact absurd h (by decide)

def renderTzOpt : Option (Char × Char × Char × Char × Char) → List Char
  | none => []
  | some (sg, a, b, c, d) => [sg, a, b, ':', c, d]

def tzCapture : Option (Char × Char × Char × Char × Char) → Option (List Char)
  | none => none
  | some (sg, a, b, c, d) => some [sg, a, b, ':', c, d]

def tzOkB : Option (Char × Char × Char × Char × Char) → Bool
  | none => true
  | some (sg, a, b, c, d) =>
    (sg = '+' || sg = '-') && a.isDigit && b.isDigit && c.isDigit && d.isDigit

def renderTsCore (y1 y2 y3 y4 m1 m2 d1 d2 : Char) (w : List Char)
    (hh1 hh2 mi1 mi2 ss1 ss2 : Char) (fr : Option (List Char)) : List Char :=
  y1 :: y2 :: y3 :: y4 :: '-' :: m1 :: m2 :: '-' :: d1 :: d2 ::
    (w ++ hh1 :: hh2 :: ':' :: mi1 :: mi2 :: ':' :: ss1 :: ss2 ::
      (match fr with | none => [] | some ds => '.' :: ds))

theorem matchTimestamp_render
    (y1 y2 y3 y4 m1 m2 d1 d2 hh1 hh2 mi1 mi2 ss1 ss2 : Char) (w : List Char)
    (fr : Option (List Char)) (o : Option (Char × Char × Char × Char × Char))
    (hdig : ([y1, y2, y3, y4, m1, m2, d1, d2, hh1, hh2, mi1, mi2, ss1, ss2].all Char.isDigit) = true)
    (hwne : w ≠ []) (hwall : w.all pyIsSpace = true)
    (hfr : ∀ ds, fr = some ds → ds ≠ [] ∧ ds.all Char.isDigit = true)
    (ho : tzOkB o = true) :
    matchTimestamp
        (renderTsCore y1 y2 y3 y4 m1 m2 d1 d2 w hh1 hh2 mi1 mi2 ss1 ss2 fr
          ++ renderTzOpt o)
      = some (⟨digitsToNat [y1, y2, y3, y4], digitsToNat [m1, m2],
               digitsToNat [d1, d2], digitsToNat [hh1, hh2],
               digitsToNat [mi1, mi2], digitsToNat [ss1, ss2],
               fr, tzCapture o⟩,
              renderTsCore y1 y2 y3 y4 m1 m2 d1 d2 w hh1 hh2 mi1 mi2 ss1 ss2 fr
                ++ renderTzOpt o,
              []) := by
  simp only [List.all_cons, List.all_nil, Bool.and_eq_true, and_true] at hdig
  obtain ⟨hy1, hy2, hy3, hy4, hm1, hm2, hd1, hd2, hhh1, hhh2, hmi1, hmi2, hss1, hss2⟩ := hdig
  have hwe : w.isEmpty = false := by
    cases w with
    | nil => exact absurd rfl hwne
    | cons a t => rfl
  rcases fr with _ | ds
  · rcases o with _ | ⟨sg, a, b, c, d⟩
    · have hws := takeWhile_all_append (p := pyIsSpace) w
        (hh1 :: hh2 :: ':' :: mi1 :: mi2 :: ':' :: ss1 :: ss2 :: []) hwall
        (by intro c cs hc; injection hc with h1 _; subst h1; exact digit_not_space hhh1)
      simp [matchTimestamp, renderTsCore, renderTzOpt, tzCapture, matchNDigits,
        matchCh, matchWs1, matchFrac, matchTz, hy1, hy2, hy3, hy4, hm1, hm2,
        hd1, hd2, hhh1, hhh2, hmi1, hmi2, hss1, hss2, hws.1, hws.2, hwe]
    · simp only [tzOkB, Bool.and_eq_true, Bool.or_eq_true, decide_eq_true_eq] at ho
      obtain ⟨⟨⟨⟨hsg, ha⟩, hb⟩, hc⟩, hd⟩ := ho
      have hws := takeWhile_all_append (p := pyIsSpace) w
        (hh1 :: hh2 :: ':' :: mi1 :: mi2 :: ':' :: ss1 :: ss2 :: sg :: a :: b :: ':' :: c :: d :: []) hwall
        (by intro c' cs hc'; injection hc' with h1 _; subst h1; exact digit_not_space hhh1)
      rcases hsg with hsg | hsg <;> subst hsg <;>
        simp [matchTimestamp, renderTsCore, renderTzOpt, tzCapture, matchNDigits,
          matchCh, matchWs1, matchFrac, matchTz, hy1, hy2, hy3, hy4, hm1, hm2,
          hd1, hd2, hhh1, hhh2, hmi1, hmi2, hss1, hss2, hws.1, hws.2, hwe, ha, hb, hc, hd]
  · obtain ⟨hdsne, hdsall⟩ := hfr ds rfl
    have hdse : ds.isEmpty = false := by
      cases ds with
      | nil => exact absurd rfl hdsne
      | cons a t => rfl
    rcases o with _ | ⟨sg, a, b, c, d⟩
    · have hws := takeWhile_all_append (p := pyIsSpace) w
        (hh1 :: hh2 :: ':' :: mi1 :: mi2 :: ':' :: ss1 :: ss2 :: '.' :: ds) hwall
        (by intro c cs hc; injection hc with h1 _; subst h1; exact digit_not_space hhh1)
      have hds1 : List.takeWhile Char.isDigit ds = ds := by
        simpa using (takeWhile_all_append (p := Char.isDigit) ds [] hdsall
          (by intro c cs hc; exact absurd hc (by simp))).1
      have hds2 : List.dropWhile Char.isDigit ds = [] := by
        simpa using (takeWhile_all_append (p := Char.isDigit) ds [] hdsall
          (by intro c cs hc; exact absurd hc (by simp))).2
      simp [matchTimestamp, renderTsCore, renderTzOpt, tzCapture, matchNDigits,
        matchCh, matchWs1, matchFrac, matchTz, hy1, hy2, hy3, hy4, hm1, hm2,
        hd1, hd2, hhh1, hhh2, hmi1, hmi2, hss1, hss2, hws.1, hws.2, hwe,
        hds1, hds2, hdse]
    · simp only [tzOkB, Bool.and_eq_true, Bool.or_eq_true, decide_eq_true_eq] at ho
      obtain ⟨⟨⟨⟨hsg, ha⟩, hb⟩, hc⟩, hd⟩ := ho
      have hws := takeWhile_all_append (p := pyIsSpace) w
        (hh1 :: hh2 :: ':' :: mi1 :: mi2 :: ':' :: ss1 :: ss2 :: '.' ::
          (ds ++ sg :: a :: b :: ':' :: c :: d :: [])) hwall
        (by intro c' cs hc'; injection hc' with h1 _; subst h1; exact digit_not_space hhh1)
      have hds := takeWhile_all_append (p := Char.isDigit) ds
        (sg :: a :: b :: ':' :: c :: d :: []) hdsall
        (by intro c' cs hc'; injection hc' with h1 _; subst h1
            rcases hsg with hsg | hsg <;> subst hsg <;> decide)
      rcases hsg with hsg | hsg <;> subst hsg <;>
        simp [matchTimestamp, renderTsCore, renderTzOpt, tzCapture, matchNDigits,
          matchCh, matchWs1, matchFrac, matchTz, hy1, hy2, hy3, hy4, hm1, hm2,
          hd1, hd2, hhh1, hhh2, hmi1, hmi2, hss1, hss2, hws.1, hws.2, hwe,
          hds.1, hds.2, hdse, ha, hb, hc, hd]

/-! ## The claims -/

/-- Claim C1: for the device pipeline with delimiter `,`, the single
input line `1,"Printer A","Lobby unit",PRT1234,2024-03-01 10:00:00,enabled`
is accepted and produces exactly the record `{id: 1, name: "Printer A",
description: "Lobby unit", code: "PRT1234",
expire_date: "2024-03-01 10:00:00", state: "enabled"}`. -/
theorem device_end_to_end_example :
    cleanDeviceData
        "1,\"Printer A\",\"Lobby unit\",PRT1234,2024-03-01 10:00:00,enabled".data ','
      = [{ id := 1, name := "Printer A".data, description := "Lobby unit".data,
           code := "PRT1234".data, expire_date := "2024-03-01 10:00:00".data,
           state := "enabled".data }] := by
  decide

/-- Claim C2: timestamp reconstruction composes a valid date from
year/month/day and then adds hours, minutes, seconds and microseconds
as a duration (first conjunct: the repaired value of
`2024-01-01 23:59:66` is literally ordinal-of-(2024,1,1) plus
23h 59m 66s), so out-of-range time components roll over; an input line
containing `2024-01-01 23:59:66` yields
`expire_date = "2024-01-02 00:00:06"` in the accepted record. -/
theorem timestamp_rollover :
    fixMalformedTimestamp "2024-01-01 23:59:66".data
      = some ((ymdToOrdinal 2024 1 1 - 1) * 86400000000
          + 23 * 3600000000 + 59 * 60000000 + 66 * 1000000) ∧
    (fixMalformedTimestamp "2024-01-01 23:59:66".data).map formatDt
      = some "2024-01-02 00:00:06".data ∧
    (cleanDeviceData
        "7,\"Clock\",\"x\",ABCD1234,2024-01-01 23:59:66,enabled".data ','
      ).map DeviceRow.expire_date = ["2024-01-02 00:00:06".data] := by
  refine ⟨by decide, by decide, by decide⟩

/-- Claim C3: in every run of either pipeline the accepted records have
pairwise distinct ids (and, for devices, pairwise distinct codes); each
iteration only ever extends the accepted-row list, so earlier accepted
rows are retained; and a line whose extracted numeric id is already in
the seen-set leaves the accepted rows unchanged and is discarded with a
duplicate-id reason at its own (later) line number. -/
theorem duplicate_ids_first_occurrence_wins (raw : List Char) (delimiter : Char)
    (st : DeviceState) (line : List Char) :
    ((cleanDeviceData raw delimiter).map DeviceRow.id).Nodup ∧
    ((cleanDeviceData raw delimiter).map DeviceRow.code).Nodup ∧
    ((cleanContentData raw delimiter).map ContentRow.id).Nodup ∧
    st.rows <+: (processDeviceLine delimiter st line).rows ∧
    ((pyStrip line).isEmpty = false →
      (preprocessAndSplitLine line delimiter).isEmpty = false →
      ((preprocessAndSplitLine line delimiter).headD []).isEmpty = false →
      (((preprocessAndSplitLine line delimiter).headD []).filter Char.isDigit).isEmpty = false →
      digitsToNat (((preprocessAndSplitLine line delimiter).headD []).filter Char.isDigit) ∈ st.seenIds →
      (processDeviceLine delimiter st line).rows = st.rows ∧
      (processDeviceLine delimiter st line).events
        = st.events ++ [(st.lineNo + 1, DiscardReason.duplicateId)]) := by
  refine ⟨(cleanDeviceDataFull_inv raw delimiter).1,
          (cleanDeviceDataFull_inv raw delimiter).2.1,
          (cleanContentDataFull_inv raw delimiter).1,
          processDeviceLine_rows_isPrefix delimiter st line, ?_⟩
  intro h1 h2 h3 h4 h5
  have hdup := processId_duplicate h4 h5
  have heq : processDeviceLine delimiter st line
      = discardDevice st DiscardReason.duplicateId := by
    unfold processDeviceLine
    rw [if_neg (by rw [h1]; exact Bool.false_ne_true)]
    unfold processDeviceFields
    rw [if_neg (by rw [h2, h3]; simp)]
    rw [hdup]
  rw [heq]
  exact ⟨rfl, rfl⟩

/-- Witness for C3 at a concrete state whose seen-set already holds
id 5: the otherwise valid line `5,"B",BBBB2222,...` is discarded with a
duplicate-id event. -/
theorem duplicate_ids_first_occurrence_wins_witness :
    (processDeviceLine ',' ⟨1, [], [5], [], 0, []⟩
        "5,\"B\",BBBB2222,2024-03-01 10:00:00,enabled".data).rows = [] ∧
    (processDeviceLine ',' ⟨1, [], [5], [], 0, []⟩
        "5,\"B\",BBBB2222,2024-03-01 10:00:00,enabled".data).events
      = [(2, DiscardReason.duplicateId)] := by
  have h := (duplicate_ids_first_occurrence_wins [] ',' ⟨1, [], [5], [], 0, []⟩
      "5,\"B\",BBBB2222,2024-03-01 10:00:00,enabled".data).2.2.2.2
    (by decide) (by decide) (by decide) (by decide) (by decide)
  exact ⟨h.1, h.2⟩

/-- Claim C4: the id-seen-set and code-seen-set are mutated only upon
full acceptance of a row — any iteration of either pipeline that
leaves the accepted rows unchanged (a discard) leaves the seen-sets
unchanged as well; consequently (closed conjuncts) the run
`1,AAAA1111` (discarded: no datetime) followed by
`1,"B",AAAA1111,2024-03-01 10:00:00,enabled` accepts the second line
even though it reuses the discarded line's id 1 and code AAAA1111. -/
theorem seen_sets_mutated_only_on_acceptance (delimiter : Char)
    (stD : DeviceState) (stC : ContentState) (line : List Char) :
    ((processDeviceLine delimiter stD line).rows = stD.rows →
      (processDeviceLine delimiter stD line).seenIds = stD.seenIds ∧
      (processDeviceLine delimiter stD line).seenCodes = stD.seenCodes) ∧
    ((processContentLine delimiter stC line).rows = stC.rows →
      (processContentLine delimiter stC line).seenIds = stC.seenIds) ∧
    cleanDeviceData "1,AAAA1111\n1,\"B\",AAAA1111,2024-03-01 10:00:00,enabled".data ','
      = [{ id := 1, name := "B".data, description := [], code := "AAAA1111".data,
           expire_date := "2024-03-01 10:00:00".data, state := "enabled".data }] ∧
    (cleanDeviceDataFull "1,AAAA1111\n1,\"B\",AAAA1111,2024-03-01 10:00:00,enabled".data ','
      ).events = [(1, DiscardReason.noDatetime)] := by
  refine ⟨?_, ?_, by decide, by decide⟩
  · intro hrows
    rcases processDeviceLine_cases delimiter stD line with ⟨r, he⟩ | ⟨row, _, _, _, he⟩
    · rw [he]
      exact ⟨rfl, rfl⟩
    · rw [he] at hrows
      have hlen := congrArg List.length hrows
      simp [acceptDevice] at hlen
  · intro hrows
    rcases processContentLine_cases delimiter stC line with ⟨r, he⟩ | ⟨row, _, _, he⟩
    · rw [he]
      rfl
    · rw [he] at hrows
      have hlen := congrArg List.length hrows
      simp [acceptContent] at hlen

/-- Witness for C4 at a concrete discarded line (no numeric id): both
seen-sets stay empty. -/
theorem seen_sets_mutated_only_on_acceptance_witness :
    (processDeviceLine ',' initDeviceState "no digits here".data).seenIds = [] ∧
    (processDeviceLine ',' initDeviceState "no digits here".data).seenCodes = [] ∧
    (processContentLine ',' initContentState "no digits here".data).seenIds = [] := by
  have h1 := (seen_sets_mutated_only_on_acceptance ',' initDeviceState
      initContentState "no digits here".data).1 (by decide)
  have h2 := (seen_sets_mutated_only_on_acceptance ',' initDeviceState
      initContentState "no digits here".data).2.1 (by decide)
  exact ⟨h1.1, h1.2, h2⟩

/-- Claim C5: the line normalizer with delimiter `,` applied to the
malformed line `1""NAME""NOTE",CODE1234,2024-03-01 10:00:00,enabled`
produces a field list in which the id (field 0), name (field 2), note
(field 3), code (field 4), timestamp (field 5) and state (field 6)
each occupy a distinct field (field 1 holds a leftover lone quote). -/
theorem delimiter_repair_example :
    preprocessAndSplitLine
        "1\"\"NAME\"\"NOTE\",CODE1234,2024-03-01 10:00:00,enabled".data ','
      = ["1".data, "\"".data, "\"NAME\"".data, "\"NOTE\"".data,
         "CODE1234".data, "2024-03-01 10:00:00".data, "enabled".data] := by
  decide

/-- Claim C6: the content device-id locator scans indices
`len(fields) - 3` down to `1`: a successful result is the first
purely-numeric (after trimming) field met in that descending scan,
with its integer value and index; it returns `none` exactly when no
purely-numeric field exists in that range, in which case the content
orchestrator discards the line. -/
theorem content_device_id_locator_spec (fields : List (List Char))
    (delimiter : Char) (st : ContentState) (line : List Char) :
    (∀ v i, findContentDeviceId fields = some (v, i) →
      1 ≤ i ∧ i ≤ fields.length - 3 ∧ isNumericFieldAt fields i = true ∧
      v = digitsToNat (pyStrip (fields.getD i [])) ∧
      ∀ j, i < j → j ≤ fields.length - 3 → isNumericFieldAt fields j = false) ∧
    (findContentDeviceId fields = none ↔
      ∀ j, 1 ≤ j → j ≤ fields.length - 3 → isNumericFieldAt fields j = false) ∧
    ((pyStrip line).isEmpty = false →
      (preprocessAndSplitLine line delimiter).isEmpty = false →
      ((preprocessAndSplitLine line delimiter).headD []).isEmpty = false →
      processId ((preprocessAndSplitLine line delimiter).headD []) st.seenIds
        = Except.ok (digitsToNat
            (((preprocessAndSplitLine line delimiter).headD []).filter Char.isDigit)) →
      parseAndCleanDatetime line ≠ none →
      findContentDeviceId (preprocessAndSplitLine line delimiter) = none →
      processContentLine delimiter st line
        = discardContent st DiscardReason.noContentDeviceId) := by
  refine ⟨fun v i h => findContentGo_some h, findContentGo_none, ?_⟩
  intro h1 h2 h3 hpid hdt hloc
  unfold processContentLine
  rw [if_neg (by rw [h1]; exact Bool.false_ne_true)]
  unfold processContentFields
  rw [if_neg (by rw [h2, h3]; simp)]
  rw [hpid]
  cases e : parseAndCleanDatetime line with
  | none => exact absurd e hdt
  | some dt =>
    rw [hloc]

/-- Witness for C6: on `["9","a","7","b","c"]` the locator returns
`(7, 2)` with the stated properties, and a content line with no
numeric field in scan range is discarded by the orchestrator. -/
theorem content_device_id_locator_spec_witness :
    (1 ≤ 2 ∧ 2 ≤ [['9'], ['a'], ['7'], ['b'], ['c']].length - 3 ∧
     isNumericFieldAt [['9'], ['a'], ['7'], ['b'], ['c']] 2 = true ∧
     7 = digitsToNat (pyStrip ([['9'], ['a'], ['7'], ['b'], ['c']].getD 2 [])) ∧
     ∀ j, 2 < j → j ≤ [['9'], ['a'], ['7'], ['b'], ['c']].length - 3 →
       isNumericFieldAt [['9'], ['a'], ['7'], ['b'], ['c']] j = false) ∧
    processContentLine ',' initContentState
        "1,abc,2024-03-01 10:00:00,enabled".data
      = discardContent initContentState DiscardReason.noContentDeviceId := by
  constructor
  · exact (content_device_id_locator_spec [['9'], ['a'], ['7'], ['b'], ['c']]
      ',' initContentState []).1 7 2 (by decide)
  · exact (content_device_id_locator_spec []
      ',' initContentState "1,abc,2024-03-01 10:00:00,enabled".data).2.2
      (by decide) (by decide) (by decide) (by rfl) (by decide) (by decide)

/-- Claim C7: the status extractor returns the first field (in field
order) whose trimmed lower-casing is exactly `enabled` or `deleted`,
and `enabled` when none matches; its result is never `disabled`, and
no accepted record of either pipeline leaves with state `disabled`. -/
theorem status_extractor_spec (fields : List (List Char)) (raw : List Char)
    (delimiter : Char) :
    (extractStatus fields =
      match fields.find? statusHit with
      | some f => normStatus f
      | none => "enabled".data) ∧
    (extractStatus fields = "enabled".data ∨
     extractStatus fields = "deleted".data) ∧
    extractStatus fields ≠ "disabled".data ∧
    (∀ r ∈ cleanDeviceData raw delimiter, r.state ≠ "disabled".data) ∧
    (∀ r ∈ cleanContentData raw delimiter, r.state ≠ "disabled".data) := by
  refine ⟨extractStatus_eq_find fields, extractStatus_mem fields, ?_, ?_, ?_⟩
  · rcases extractStatus_mem fields with h | h <;> rw [h] <;> decide
  · intro r hr
    rcases (cleanDeviceDataFull_inv raw delimiter).2.2.2.2 r hr with h | h <;>
      rw [h] <;> decide
  · intro r hr
    rcases (cleanContentDataFull_inv raw delimiter).2.2 r hr with h | h <;>
      rw [h] <;> decide

/-- Witness for C7: the record accepted from the end-to-end example
line does not carry state `disabled`. -/
theorem status_extractor_spec_witness :
    ({ id := 1, name := "Printer A".data, description := "Lobby unit".data,
       code := "PRT1234".data, expire_date := "2024-03-01 10:00:00".data,
       state := "enabled".data } : DeviceRow).state ≠ "disabled".data := by
  exact (status_extractor_spec []
    "1,\"Printer A\",\"Lobby unit\",PRT1234,2024-03-01 10:00:00,enabled".data
    ',').2.2.2.1 _ (by decide)

/-- Claim C8: when the timestamp pattern matches more than once in a
raw line, the repairer selects the lexicographically greatest match
string as the latest candidate, and exactly that string is handed to
`_fix_malformed_timestamp` for reconstruction into the record's
`expire_date`. -/
theorem latest_timestamp_is_lexicographic_max (text : List Char)
    (h : 1 < (findAllTs text).length) :
    extractLatestDatetimeStr text = some (pyMaxList (findAllTs text)) ∧
    parseAndCleanDatetime text
      = fixMalformedTimestamp (pyMaxList (findAllTs text)) := by
  have hne : findAllTs text ≠ [] := by
    intro e
    rw [e] at h
    simp at h
  have hmem := pyMaxList_mem hne
  have hmax_ne : pyMaxList (findAllTs text) ≠ [] := findAllTs_ne_nil text _ hmem
  have h1 : extractLatestDatetimeStr text
      = some (pyMaxList (findAllTs text)) := by
    unfold extractLatestDatetimeStr
    rw [if_neg (by simp [List.isEmpty_iff, hne]), if_pos h]
  refine ⟨h1, ?_⟩
  unfold parseAndCleanDatetime
  rw [h1]
  show (if (pyMaxList (findAllTs text)).isEmpty = true then none
        else fixMalformedTimestamp (pyMaxList (findAllTs text)))
      = fixMalformedTimestamp (pyMaxList (findAllTs text))
  rw [if_neg (by simp [List.isEmpty_iff, hmax_ne])]

/-- Witness for C8: with two candidates in one line the later
`2024-05-02 11:00:00` is selected and reconstructed. -/
theorem latest_timestamp_is_lexicographic_max_witness :
    extractLatestDatetimeStr
        "a 2024-03-01 10:00:00 b 2024-05-02 11:00:00".data
      = some "2024-05-02 11:00:00".data ∧
    parseAndCleanDatetime "a 2024-03-01 10:00:00 b 2024-05-02 11:00:00".data
      = fixMalformedTimestamp "2024-05-02 11:00:00".data := by
  obtain ⟨h1, h2⟩ := latest_timestamp_is_lexicographic_max
    "a 2024-03-01 10:00:00 b 2024-05-02 11:00:00".data (by decide)
  constructor
  · rw [h1]
    decide
  · rw [h2]
    decide

/-- Counterexample to C9 as stated: the non-blank raw line `,x`
normalizes to `["", "x"]` — more than one field, first field empty —
yet both orchestrators discard it as effectively empty, contradicting
the claim that such a result is not treated as an effectively empty
line. -/
theorem effectively_empty_counterexample :
    preprocessAndSplitLine ",x".data ',' = [[], ['x']] ∧
    (preprocessAndSplitLine ",x".data ',').length = 2 ∧
    (pyStrip ",x".data).isEmpty = false ∧
    (cleanDeviceDataFull ",x".data ',').events
      = [(1, DiscardReason.emptyAfterProcessing)] ∧
    cleanDeviceData ",x".data ',' = [] ∧
    (cleanContentDataFull ",x".data ',').events
      = [(1, DiscardReason.emptyAfterProcessing)] := by
  refine ⟨by decide, by decide, by decide, by decide, by decide, by decide⟩

/-- Claim C9 (amended): for every non-blank raw line, the orchestrators
discard the line as effectively empty after normalization exactly when
the normalizer's output is the empty list or its FIRST field is the
empty string — regardless of how many fields follow. -/
theorem effectively_empty_discard_characterisation (delimiter : Char)
    (stD : DeviceState) (stC : ContentState) (line : List Char)
    (hne : (pyStrip line).isEmpty = false) :
    (processDeviceLine delimiter stD line
        = discardDevice stD DiscardReason.emptyAfterProcessing
      ↔ ((preprocessAndSplitLine line delimiter).isEmpty = true
         ∨ ((preprocessAndSplitLine line delimiter).headD []).isEmpty = true)) ∧
    (processContentLine delimiter stC line
        = discardContent stC DiscardReason.emptyAfterProcessing
      ↔ ((preprocessAndSplitLine line delimiter).isEmpty = true
         ∨ ((preprocessAndSplitLine line delimiter).headD []).isEmpty = true)) := by
  constructor
  · unfold processDeviceLine
    rw [if_neg (by rw [hne]; exact Bool.false_ne_true)]
    by_cases hcond : ((preprocessAndSplitLine line delimiter).isEmpty
        || ((preprocessAndSplitLine line delimiter).headD []).isEmpty) = true
    · constructor
      · intro _
        simpa [Bool.or_eq_true] using hcond
      · intro _
        unfold processDeviceFields
        rw [if_pos hcond]
    · rw [Bool.not_eq_true] at hcond
      constructor
      · intro h
        exact absurd h (processDeviceFields_ne_emptyDiscard hcond)
      · intro h
        rw [Bool.or_eq_false_iff] at hcond
        rcases h with h | h
        · rw [hcond.1] at h
          exact Bool.noConfusion h
        · rw [hcond.2] at h
          exact Bool.noConfusion h
  · unfold processContentLine
    rw [if_neg (by rw [hne]; exact Bool.false_ne_true)]
    by_cases hcond : ((preprocessAndSplitLine line delimiter).isEmpty
        || ((preprocessAndSplitLine line delimiter).headD []).isEmpty) = true
    · constructor
      · intro _
        simpa [Bool.or_eq_true] using hcond
      · intro _
        unfold processContentFields
        rw [if_pos hcond]
    · rw [Bool.not_eq_true] at hcond
      constructor
      · intro h
        exact absurd h (processContentFields_ne_emptyDiscard hcond)
      · intro h
        rw [Bool.or_eq_false_iff] at hcond
        rcases h with h | h
        · rw [hcond.1] at h
          exact Bool.noConfusion h
        · rw [hcond.2] at h
          exact Bool.noConfusion h

/-- Witness for the amended C9 at the concrete line `,x`. -/
theorem effectively_empty_discard_characterisation_witness :
    processDeviceLine ',' initDeviceState ",x".data
      = discardDevice initDeviceState DiscardReason.emptyAfterProcessing ∧
    processContentLine ',' initContentState ",x".data
      = discardContent initContentState DiscardReason.emptyAfterProcessing := by
  constructor
  · exact (effectively_empty_discard_characterisation ',' initDeviceState
      initContentState ",x".data (by decide)).1.mpr (by decide)
  · exact (effectively_empty_discard_characterisation ',' initDeviceState
      initContentState ",x".data (by decide)).2.mpr (by decide)

/-- Claim C10: the timestamp repairer matches an optional trailing
`±HH:MM` timezone offset but never uses it — for any two candidate
timestamp strings that are identical except for the presence or value
of the trailing offset, `_fix_malformed_timestamp` returns the same
datetime, so the offset never shifts an accepted record's
`expire_date`. -/
theorem tz_offset_never_used (y1 y2 y3 y4 m1 m2 d1 d2 : Char) (w : List Char)
    (hh1 hh2 mi1 mi2 ss1 ss2 : Char) (fr : Option (List Char))
    (o1 o2 : Option (Char × Char × Char × Char × Char))
    (hdig : ([y1, y2, y3, y4, m1, m2, d1, d2, hh1, hh2, mi1, mi2, ss1, ss2].all
      Char.isDigit) = true)
    (hwne : w ≠ []) (hwall : w.all pyIsSpace = true)
    (hfr : ∀ ds, fr = some ds → ds ≠ [] ∧ ds.all Char.isDigit = true)
    (ho1 : tzOkB o1 = true) (ho2 : tzOkB o2 = true) :
    fixMalformedTimestamp
        (renderTsCore y1 y2 y3 y4 m1 m2 d1 d2 w hh1 hh2 mi1 mi2 ss1 ss2 fr
          ++ renderTzOpt o1)
      = fixMalformedTimestamp
        (renderTsCore y1 y2 y3 y4 m1 m2 d1 d2 w hh1 hh2 mi1 mi2 ss1 ss2 fr
          ++ renderTzOpt o2) := by
  have e1 := matchTimestamp_render y1 y2 y3 y4 m1 m2 d1 d2 hh1 hh2 mi1 mi2
    ss1 ss2 w fr o1 hdig hwne hwall hfr ho1
  have e2 := matchTimestamp_render y1 y2 y3 y4 m1 m2 d1 d2 hh1 hh2 mi1 mi2
    ss1 ss2 w fr o2 hdig hwne hwall hfr ho2
  unfold fixMalformedTimestamp
  rw [e1, e2]

/-- Witness for C10: the offset `+05:00` does not change the repaired
value of `2024-03-01 10:00:00`. -/
theorem tz_offset_never_used_witness :
    fixMalformedTimestamp "2024-03-01 10:00:00+05:00".data
      = fixMalformedTimestamp "2024-03-01 10:00:00".data := by
  exact tz_offset_never_used '2' '0' '2' '4' '0' '3' '0' '1' [' ']
    '1' '0' '0' '0' '0' '0' none (some ('+', '0', '5', '0', '0')) none
    (by decide) (by decide) (by decide)
    (fun ds hds => Option.noConfusion hds) (by decide) (by decide)

end CsvCleaner
